import Mathlib

/-!
Verification of the URL-shortener core (identifier utilities, event log,
record store, submission validator, redirect resolver) against its
specification.  JavaScript strings are modelled as `List Char`, JavaScript
numbers as `ℚ` (timestamps in milliseconds), and the browser storage
collaborator as explicit state passing.
-/

namespace UrlShort

/-- A JavaScript string, modelled as its list of characters. -/
abbrev JsStr := List Char

/-- Membership of a character in the regex character class `[a-zA-Z0-9]`. -/
def isAlphanumChar (c : Char) : Bool :=
  (97 ≤ c.toNat && c.toNat ≤ 122) || (65 ≤ c.toNat && c.toNat ≤ 90) ||
    (48 ≤ c.toNat && c.toNat ≤ 57)

/-- `/^[a-zA-Z0-9]+$/.test s`: the whole string is one or more
characters of the class `[a-zA-Z0-9]`. -/
def alphanumericRegexTest (s : JsStr) : Bool :=
  !s.isEmpty && s.all isAlphanumChar

/-- `validateShortCode` from `urlUtils.ts`: regex test plus
`shortCode.length >= 3 && shortCode.length <= 20`. -/
def validateShortCode (shortCode : JsStr) : Bool :=
  alphanumericRegexTest shortCode && decide (3 ≤ shortCode.length) &&
    decide (shortCode.length ≤ 20)

/-- The `chars` alphabet of `generateRandomShortCode` in `urlUtils.ts`. -/
def codeChars : JsStr :=
  "abcdefghijklmnopqrstuvwxyzABCDEFGHIJKLMNOPQRSTUVWXYZ0123456789".toList

/-- JavaScript `s.charAt i`: the one-character string at index `i`,
or the empty string when `i` is out of range. -/
def charAt (s : JsStr) (i : ℕ) : JsStr :=
  match s.get? i with
  | some c => [c]
  | none => []

/-- `generateRandomShortCode` from `urlUtils.ts`.  `Math.random()` is
modelled as an oracle `rand : ℕ → ℚ` giving the value drawn at each of the
six loop iterations; each iteration appends
`chars.charAt (Math.floor (rand i * chars.length))`. -/
def generateRandomShortCode (rand : ℕ → ℚ) : JsStr :=
  (List.range 6).foldl
    (fun result i =>
      result ++ charAt codeChars (Int.toNat ⌊rand i * (codeChars.length : ℚ)⌋))
    []

/-- A click record (`ClickData` in `types.ts`), as stored on a record. -/
structure ClickData where
  id : JsStr
  timestamp : ℚ
  userAgent : JsStr
  referrer : JsStr
  ip : JsStr
  location : JsStr
deriving DecidableEq

/-- A shortened-URL record (`ShortenedUrl` in `types.ts`). -/
structure ShortenedUrl where
  id : JsStr
  originalUrl : JsStr
  shortCode : JsStr
  createdAt : ℚ
  expiresAt : ℚ
  validityMinutes : ℚ
  clicks : List ClickData
  isActive : Bool
deriving DecidableEq

/-- The record store: the in-memory React state together with the parsed
content of the `shortened-urls` storage key.  `saveUrls` writes both. -/
structure StoreState where
  urls : List ShortenedUrl
  stored : List ShortenedUrl
deriving DecidableEq

/-- `saveUrls` from `useUrlStorage`: persist the collection and set it as
the in-memory state. -/
def saveUrls (new : List ShortenedUrl) : StoreState :=
  ⟨new, new⟩

/-- The pure collection update performed by `addClick` in `useUrlStorage`:
map over the collection and, on every record whose `shortCode` equals the
given code, append the click to its click list. -/
def addClick (urls : List ShortenedUrl) (shortCode : JsStr)
    (clickData : ClickData) : List ShortenedUrl :=
  urls.map fun url =>
    if url.shortCode == shortCode then
      { url with clicks := url.clicks ++ [clickData] }
    else url

/-- `addClick` as a store operation: compute the updated collection and
persist it via `saveUrls`. -/
def addClickOp (s : StoreState) (shortCode : JsStr)
    (clickData : ClickData) : StoreState :=
  saveUrls (addClick s.urls shortCode clickData)

/-- `addUrl` from `useUrlStorage`: append one record and persist. -/
def addUrlOp (s : StoreState) (url : ShortenedUrl) : StoreState :=
  saveUrls (s.urls ++ [url])

/-- `findUrlByShortCode` from `useUrlStorage`: the first record whose
`shortCode` matches and which is active (expiry is ignored here). -/
def findUrlByShortCode (urls : List ShortenedUrl) (shortCode : JsStr) :
    Option ShortenedUrl :=
  urls.find? fun url => url.shortCode == shortCode && url.isActive

/-- `isUrlExpired` from `useUrlStorage`: `Date.now() > url.expiresAt`,
with the current time passed explicitly. -/
def isUrlExpired (now : ℚ) (url : ShortenedUrl) : Bool :=
  decide (url.expiresAt < now)

/-- Log levels of `LogEvent` in `logger.ts`. -/
inductive LogLevel
  | info
  | warn
  | error
  | debug
deriving DecidableEq

/-- A log entry (`LogEvent` in `logger.ts`); the untyped `data` payload is
modelled as an opaque optional string. -/
structure LogEvent where
  id : JsStr
  timestamp : ℚ
  level : LogLevel
  message : JsStr
  data : Option JsStr
  source : Option JsStr
deriving DecidableEq

/-- The `maxLogs` bound of the `Logger` class. -/
def maxLogs : ℕ := 1000

/-- `Logger.addLog`: `unshift` the new entry, then keep only the first
`maxLogs` entries (`slice(0, maxLogs)`) when the bound is exceeded. -/
def addLog (logs : List LogEvent) (logEvent : LogEvent) : List LogEvent :=
  let l := logEvent :: logs
  if maxLogs < l.length then l.take maxLogs else l

/-- `Logger.loadLogs`: read the persisted value; when it is absent the log
stays empty, when parsing fails (`JSON.parse` throws) the log is reset to
empty, otherwise the parsed sequence is adopted.  The parser is passed
explicitly; `none` models a thrown parse error. -/
def loadLogs (storedLogs : Option JsStr)
    (parse : JsStr → Option (List LogEvent)) : List LogEvent :=
  match storedLogs with
  | none => []
  | some s =>
    match parse s with
    | some l => l
    | none => []

/-- C2 counterexample: an inactive record whose `shortCode` matches still
gets the click appended by `addClick`, so the claim that only active
records are updated is false as stated. -/
def c2InactiveUrl : ShortenedUrl :=
  { id := []
    originalUrl := []
    shortCode := ['a', 'b', 'c']
    createdAt := 0
    expiresAt := 0
    validityMinutes := 1
    clicks := []
    isActive := false }

/-- A concrete click used by the C2 counterexample. -/
def c2Click : ClickData :=
  { id := ['k'], timestamp := 0, userAgent := [], referrer := [],
    ip := [], location := [] }

/-- JavaScript whitespace as removed by `String.prototype.trim`
(space, tab, line feed, vertical tab, form feed, carriage return). -/
def isJsWhitespace (c : Char) : Bool :=
  c.toNat == 32 || c.toNat == 9 || c.toNat == 10 || c.toNat == 13 ||
    c.toNat == 11 || c.toNat == 12

/-- JavaScript `s.trim()`. -/
def trim (s : JsStr) : JsStr :=
  ((s.dropWhile isJsWhitespace).reverse.dropWhile isJsWhitespace).reverse

/-- `isShortCodeUnique` from `urlUtils.ts`: no existing record carries the
exact code. -/
def isShortCodeUnique (shortCode : JsStr) (existingUrls : List ShortenedUrl) :
    Bool :=
  !(existingUrls.any fun url => url.shortCode == shortCode)

/-- One entry of the creation form (`UrlFormData` in `types.ts`). -/
structure UrlFormData where
  originalUrl : JsStr
  customShortCode : JsStr
  validityMinutes : ℚ
deriving DecidableEq

/-- The per-form error object built by `validateForm`: at most one message
per field. -/
structure FormErrors where
  originalUrl : Option JsStr
  customShortCode : Option JsStr
  validityMinutes : Option JsStr
deriving DecidableEq

/-- Error message `'URL is required'`. -/
def msgUrlRequired : JsStr := "URL is required".toList

/-- Error message `'Please enter a valid URL'`. -/
def msgUrlInvalid : JsStr := "Please enter a valid URL".toList

/-- Error message `'Shortcode must be 3-20 alphanumeric characters'`. -/
def msgCodeFormat : JsStr :=
  "Shortcode must be 3-20 alphanumeric characters".toList

/-- Error message `'This shortcode is already taken'`. -/
def msgCodeTaken : JsStr := "This shortcode is already taken".toList

/-- Error message `'Validity must be between 1 and 43200 minutes'`. -/
def msgValidityRange : JsStr :=
  "Validity must be between 1 and 43200 minutes".toList

/-- Error message `'Duplicate shortcode in current forms'`. -/
def msgDuplicateCode : JsStr := "Duplicate shortcode in current forms".toList

/-- `validateForm` from `UrlShortenerForm`.  `validateUrl` (the URL parser
of the browser) is passed as an oracle; all other checks are as in the
source: required/parsable URL, then (for a non-empty trimmed custom code)
format and uniqueness against persisted records, then the validity range
check `validityMinutes < 1 || validityMinutes > 43200`. -/
def validateForm (validateUrl : JsStr → Bool)
    (shortenedUrls : List ShortenedUrl) (form : UrlFormData) : FormErrors :=
  let e0 : FormErrors := ⟨none, none, none⟩
  let e1 :=
    if (trim form.originalUrl).isEmpty then
      { e0 with originalUrl := some msgUrlRequired }
    else if !validateUrl form.originalUrl then
      { e0 with originalUrl := some msgUrlInvalid }
    else e0
  let e2 :=
    if !(trim form.customShortCode).isEmpty then
      if !validateShortCode form.customShortCode then
        { e1 with customShortCode := some msgCodeFormat }
      else if !isShortCodeUnique form.customShortCode shortenedUrls then
        { e1 with customShortCode := some msgCodeTaken }
      else e1
    else e1
  if form.validityMinutes < 1 ∨ 43200 < form.validityMinutes then
    { e2 with validityMinutes := some msgValidityRange }
  else e2

/-- Does a form's error object contain any error
(`Object.keys(formErrors).length > 0`)? -/
def hasFormErrors (e : FormErrors) : Bool :=
  e.originalUrl.isSome || e.customShortCode.isSome || e.validityMinutes.isSome

/-- The `shortCodes` list of `validateAllForms`:
`forms.map((form, index) => ({code: form.customShortCode.trim(), index}))
.filter(item => item.code)`, built by recursion carrying the index. -/
def shortCodeEntriesAux : List UrlFormData → ℕ → List (JsStr × ℕ)
  | [], _ => []
  | form :: rest, idx =>
    if (trim form.customShortCode).isEmpty then
      shortCodeEntriesAux rest (idx + 1)
    else (trim form.customShortCode, idx) :: shortCodeEntriesAux rest (idx + 1)

/-- The `shortCodes` list of `validateAllForms`. -/
def shortCodeEntries (forms : List UrlFormData) : List (JsStr × ℕ) :=
  shortCodeEntriesAux forms 0

/-- The `duplicates` filter of `validateAllForms`:
`shortCodes.filter((item, index) =>
shortCodes.findIndex(other => other.code === item.code) !== index)`,
built by recursion carrying the position. -/
def dupFilterAux (sc : List (JsStr × ℕ)) :
    List (JsStr × ℕ) → ℕ → List (JsStr × ℕ)
  | [], _ => []
  | item :: rest, idx =>
    if sc.findIdx (fun other => other.1 == item.1) = idx then
      dupFilterAux sc rest (idx + 1)
    else item :: dupFilterAux sc rest (idx + 1)

/-- The `duplicates` list of `validateAllForms`. -/
def duplicateEntries (forms : List UrlFormData) : List (JsStr × ℕ) :=
  dupFilterAux (shortCodeEntries forms) (shortCodeEntries forms) 0

/-- `allErrors[index].customShortCode = 'Duplicate shortcode in current
forms'` for one duplicate entry. -/
def setDuplicateErrorAt : List FormErrors → ℕ → List FormErrors
  | [], _ => []
  | e :: rest, 0 => { e with customShortCode := some msgDuplicateCode } :: rest
  | e :: rest, n + 1 => e :: setDuplicateErrorAt rest n

/-- The `duplicates.forEach` loop of `validateAllForms`. -/
def applyDuplicateErrors (errs : List FormErrors) (dups : List (JsStr × ℕ)) :
    List FormErrors :=
  dups.foldl (fun acc dup => setDuplicateErrorAt acc dup.2) errs

/-- `validateAllForms` from `UrlShortenerForm`: per-form errors, then the
cross-batch duplicate pass; returns the error objects (indexed like
`forms`) and the overall verdict `!hasErrors`. -/
def validateAllForms (validateUrl : JsStr → Bool)
    (shortenedUrls : List ShortenedUrl) (forms : List UrlFormData) :
    List FormErrors × Bool :=
  let base := forms.map (validateForm validateUrl shortenedUrls)
  let dups := duplicateEntries forms
  (applyDuplicateErrors base dups,
    !(base.any hasFormErrors || !dups.isEmpty))

/-- The record built for one form inside `handleSubmit`: the short code is
the trimmed custom code, or the generated code when that is empty
(`form.customShortCode.trim() || generateRandomShortCode()`);
`expiresAt = now + validityMinutes * 60 * 1000`; no clicks; active. -/
def createShortenedUrl (form : UrlFormData) (id : JsStr) (now : ℚ)
    (generatedCode : JsStr) : ShortenedUrl :=
  { id := id
    originalUrl := form.originalUrl
    shortCode :=
      if (trim form.customShortCode).isEmpty then generatedCode
      else trim form.customShortCode
    createdAt := now
    expiresAt := now + form.validityMinutes * 60 * 1000
    validityMinutes := form.validityMinutes
    clicks := []
    isActive := true }

/-- The `forms.forEach` commit loop of `handleSubmit`: each form yields a
record (with its own generated id and random draws) appended via `addUrl`.
`ids idx` models `Math.random().toString(36).substr(2, 9)` and
`rands idx` the random source used by `generateRandomShortCode` for the
form at position `idx`. -/
def commitFormsAux (now : ℚ) (ids : ℕ → JsStr) (rands : ℕ → ℕ → ℚ) :
    StoreState → List UrlFormData → ℕ → StoreState
  | s, [], _ => s
  | s, form :: rest, idx =>
    commitFormsAux now ids rands
      (addUrlOp s
        (createShortenedUrl form (ids idx) now
          (generateRandomShortCode (rands idx))))
      rest (idx + 1)

/-- `handleSubmit` from `UrlShortenerForm`: when `validateAllForms` fails
nothing is committed; otherwise every form is committed in order. -/
def handleSubmit (validateUrl : JsStr → Bool) (s : StoreState)
    (forms : List UrlFormData) (now : ℚ) (ids : ℕ → JsStr)
    (rands : ℕ → ℕ → ℚ) : StoreState :=
  if (validateAllForms validateUrl s.urls forms).2 then
    commitFormsAux now ids rands s forms 0
  else s

/-- The records created by the commit loop of `handleSubmit`, listed in
form order starting at position `idx`. -/
def createdRecords (now : ℚ) (ids : ℕ → JsStr) (rands : ℕ → ℕ → ℚ) :
    List UrlFormData → ℕ → List ShortenedUrl
  | [], _ => []
  | form :: rest, idx =>
    createShortenedUrl form (ids idx) now
        (generateRandomShortCode (rands idx)) ::
      createdRecords now ids rands rest (idx + 1)

/-- Error message `'Invalid short code'`. -/
def msgInvalidShortCode : JsStr := "Invalid short code".toList

/-- Error message `'Short URL not found'`. -/
def msgUrlNotFound : JsStr := "Short URL not found".toList

/-- Error message `'This short URL has expired'`. -/
def msgUrlExpired : JsStr := "This short URL has expired".toList

/-- The observable outcome of one run of the `RedirectHandler` effect:
the `error` message (if any), the `redirecting` flag, and the resulting
record store. -/
structure ResolveResult where
  error : Option JsStr
  redirecting : Bool
  store : StoreState
deriving DecidableEq

/-- The resolution logic of `RedirectHandler`: missing code, unknown code
and expired record are terminal failures that leave the store untouched;
otherwise the click is recorded via `addClick` and the countdown starts. -/
def resolveShortCode (now : ℚ) (s : StoreState) (shortCode : Option JsStr)
    (clickData : ClickData) : ResolveResult :=
  match shortCode with
  | none => ⟨some msgInvalidShortCode, false, s⟩
  | some code =>
    match findUrlByShortCode s.urls code with
    | none => ⟨some msgUrlNotFound, false, s⟩
    | some url =>
      if isUrlExpired now url then ⟨some msgUrlExpired, false, s⟩
      else ⟨none, true, addClickOp s code clickData⟩

/-- The non-integer, in-range validity value `3/2` used against C3. -/
def form3halves : UrlFormData :=
  { originalUrl := "https://example.com".toList
    customShortCode := []
    validityMinutes := mkRat 3 2 }

/-- Witness for C3 (amended): the concrete out-of-range value `0`. -/
def form0min : UrlFormData :=
  { originalUrl := "https://example.com".toList
    customShortCode := []
    validityMinutes := 0 }

/-- The one-minute form used by the C4 witness. -/
def form1min : UrlFormData :=
  { originalUrl := "https://example.com".toList
    customShortCode := []
    validityMinutes := 1 }

/-- The empty-custom-code form used by the C5 witness. -/
def form30min : UrlFormData :=
  { originalUrl := "https://example.com".toList
    customShortCode := []
    validityMinutes := 30 }

/-- The expired record used by the C6 witness. -/
def expiredUrl : ShortenedUrl :=
  { id := ['x']
    originalUrl := "https://example.com".toList
    shortCode := ['a', 'b', 'c']
    createdAt := 0
    expiresAt := 60000
    validityMinutes := 1
    clicks := []
    isActive := true }

/-- The form with custom code `"abc123"` submitted twice against C1. -/
def formDup : UrlFormData :=
  { originalUrl := "https://example.com".toList
    customShortCode := "abc123".toList
    validityMinutes := 30 }

/-- Helper: `validateShortCode` unfolded to a propositional description. -/
theorem validateShortCode_iff (s : JsStr) :
    validateShortCode s = true ↔
      (∀ c ∈ s, isAlphanumChar c = true) ∧ 3 ≤ s.length ∧ s.length ≤ 20 := by
  simp only [validateShortCode, alphanumericRegexTest, Bool.and_eq_true,
    Bool.not_eq_true', decide_eq_true_eq, List.all_eq_true]
  constructor
  · rintro ⟨⟨⟨hne, hall⟩, h3⟩, h20⟩
    exact ⟨hall, h3, h20⟩
  · rintro ⟨hall, h3, h20⟩
    refine ⟨⟨⟨?_, hall⟩, h3⟩, h20⟩
    cases s with
    | nil => simp at h3
    | cons a t => rfl

/-- Helper: the alphabet has 62 characters. -/
theorem codeChars_length : codeChars.length = 62 := by decide

/-- Helper: every character of the alphabet is alphanumeric. -/
theorem codeChars_alphanum : ∀ c ∈ codeChars, isAlphanumChar c = true := by
  decide

/-- Helper: an in-range draw indexes inside the alphabet. -/
theorem floor_index_lt (q : ℚ) (h0 : 0 ≤ q) (h1 : q < 1) :
    Int.toNat ⌊q * (codeChars.length : ℚ)⌋ < codeChars.length := by
  have hlen : (codeChars.length : ℚ) = (62 : ℚ) := by
    rw [codeChars_length]; norm_num
  have hlt : q * (codeChars.length : ℚ) < (codeChars.length : ℚ) := by
    rw [hlen]; nlinarith
  have h2 : ⌊q * (codeChars.length : ℚ)⌋ < (codeChars.length : ℤ) :=
    Int.floor_lt.mpr (by exact_mod_cast hlt)
  rw [codeChars_length] at h2 ⊢
  omega

/-- Helper: `charAt` at an in-range index is the one-character string there. -/
theorem charAt_eq_singleton (s : JsStr) (i : ℕ) (h : i < s.length) :
    charAt s i = [s.get ⟨i, h⟩] := by
  have hg : s[i]? = some s[i] := List.getElem?_eq_getElem h
  simp [charAt, hg]

/-- Helper: each loop iteration of `generateRandomShortCode` appends exactly
one character of the alphabet. -/
theorem generateRandomShortCode_foldl (rand : ℕ → ℚ)
    (h : ∀ i, 0 ≤ rand i ∧ rand i < 1) (l : List ℕ) (acc : JsStr) :
    (l.foldl
        (fun result i =>
          result ++ charAt codeChars (Int.toNat ⌊rand i * (codeChars.length : ℚ)⌋))
        acc).length = acc.length + l.length ∧
      ∀ c ∈ l.foldl
          (fun result i =>
            result ++ charAt codeChars (Int.toNat ⌊rand i * (codeChars.length : ℚ)⌋))
          acc, c ∈ acc ∨ c ∈ codeChars := by
  induction l generalizing acc with
  | nil => exact ⟨by simp, fun c hc => Or.inl hc⟩
  | cons i t ih =>
    have hi := floor_index_lt (rand i) (h i).1 (h i).2
    have hchar := charAt_eq_singleton codeChars _ hi
    obtain ⟨ihlen, ihmem⟩ :=
      ih (acc ++ charAt codeChars (Int.toNat ⌊rand i * (codeChars.length : ℚ)⌋))
    constructor
    · rw [List.foldl_cons, ihlen, hchar, List.length_append, List.length_cons]
      simp only [List.length_cons, List.length_nil]
      omega
    · intro c hc
      rw [List.foldl_cons] at hc
      rcases ihmem c hc with hacc | hcode
      · rw [hchar] at hacc
        rcases List.mem_append.mp hacc with h1 | h2
        · exact Or.inl h1
        · rw [List.mem_singleton] at h2
          subst h2
          exact Or.inr (List.get_mem _ _ _)
      · exact Or.inr hcode

/-- Helper: the generated code is six characters of the alphabet. -/
theorem generateRandomShortCode_spec (rand : ℕ → ℚ)
    (h : ∀ i, 0 ≤ rand i ∧ rand i < 1) :
    (generateRandomShortCode rand).length = 6 ∧
      ∀ c ∈ generateRandomShortCode rand, c ∈ codeChars := by
  obtain ⟨hlen, hmem⟩ :=
    generateRandomShortCode_foldl rand h (List.range 6) []
  refine ⟨by simpa [generateRandomShortCode] using hlen, ?_⟩
  intro c hc
  rcases hmem c hc with h1 | h2
  · cases h1
  · exact h2

/-- C8: `validateShortCode s` is true iff `s` consists only of characters
from `[A-Za-z0-9]` and its length lies in `[3, 20]`; any string with a
non-alphanumeric character or with length outside `[3, 20]` yields false. -/
theorem C8_validateShortCode_characterises (s : JsStr) :
    validateShortCode s = true ↔
      (∀ c ∈ s, isAlphanumChar c = true) ∧ 3 ≤ s.length ∧ s.length ≤ 20 :=
  validateShortCode_iff s

/-- C9: for every outcome of the random source (each draw in `[0,1)`),
`generateRandomShortCode` returns a string of exactly 6 characters, each
drawn from the 62-character alphanumeric alphabet. -/
theorem C9_generateRandomShortCode_shape (rand : ℕ → ℚ)
    (h : ∀ i, 0 ≤ rand i ∧ rand i < 1) :
    (generateRandomShortCode rand).length = 6 ∧
      codeChars.length = 62 ∧
      ∀ c ∈ generateRandomShortCode rand, c ∈ codeChars := by
  obtain ⟨hlen, hmem⟩ := generateRandomShortCode_spec rand h
  exact ⟨hlen, codeChars_length, hmem⟩

/-- Witness for C9: a concrete in-range random source. -/
theorem C9_witness :
    (∀ i : ℕ, 0 ≤ (fun _ : ℕ => (0 : ℚ)) i ∧ (fun _ : ℕ => (0 : ℚ)) i < 1) ∧
      (generateRandomShortCode (fun _ => 0)).length = 6 := by
  have h : ∀ i : ℕ, 0 ≤ (fun _ : ℕ => (0 : ℚ)) i ∧
      (fun _ : ℕ => (0 : ℚ)) i < 1 := fun _ => ⟨le_refl 0, by norm_num⟩
  exact ⟨h, (C9_generateRandomShortCode_shape (fun _ => 0) h).1⟩

/-- C10: every string returned by `generateRandomShortCode` satisfies
`validateShortCode`. -/
theorem C10_generated_codes_validate (rand : ℕ → ℚ)
    (h : ∀ i, 0 ≤ rand i ∧ rand i < 1) :
    validateShortCode (generateRandomShortCode rand) = true := by
  obtain ⟨hlen, hmem⟩ := generateRandomShortCode_spec rand h
  rw [validateShortCode_iff]
  refine ⟨fun c hc => codeChars_alphanum c (hmem c hc), ?_, ?_⟩ <;> omega

/-- Witness for C10: a concrete in-range random source. -/
theorem C10_witness :
    (∀ i : ℕ, 0 ≤ (fun _ : ℕ => (0 : ℚ)) i ∧ (fun _ : ℕ => (0 : ℚ)) i < 1) ∧
      validateShortCode (generateRandomShortCode (fun _ => 0)) = true := by
  have h : ∀ i : ℕ, 0 ≤ (fun _ : ℕ => (0 : ℚ)) i ∧
      (fun _ : ℕ => (0 : ℚ)) i < 1 := fun _ => ⟨le_refl 0, by norm_num⟩
  exact ⟨h, C10_generated_codes_validate (fun _ => 0) h⟩

/-- C7: after any single append from any starting log state, the log holds
at most 1000 entries and the new entry is first; a load whose persisted
value fails to parse leaves the log empty. -/
theorem C7_log_bound_and_reset (logs : List LogEvent) (logEvent : LogEvent)
    (storedText : JsStr) (parse : JsStr → Option (List LogEvent))
    (hfail : parse storedText = none) :
    (addLog logs logEvent).length ≤ maxLogs ∧
      maxLogs = 1000 ∧
      (addLog logs logEvent).head? = some logEvent ∧
      loadLogs (some storedText) parse = [] := by
  refine ⟨?_, rfl, ?_, ?_⟩
  · unfold addLog
    dsimp only
    split
    · simp [maxLogs]
    · simp only [List.length_cons] at *
      omega
  · unfold addLog
    dsimp only
    split
    · cases logs <;> simp [maxLogs]
    · simp
  · simp [loadLogs, hfail]

/-- Witness for C7: a concrete failing parse. -/
theorem C7_witness :
    (fun _ : JsStr => (none : Option (List LogEvent))) [] = none ∧
      loadLogs (some []) (fun _ => none) = [] := by
  have h := C7_log_bound_and_reset [] ⟨[], 0, LogLevel.info, [], none, none⟩
    [] (fun _ => none) rfl
  exact ⟨rfl, h.2.2.2⟩

/-- C2 counterexample: `addClick` appends the click to an inactive record
with a matching code, so that record's click sequence does not stay
unchanged. -/
theorem C2_counterexample :
    c2InactiveUrl.isActive = false ∧
      addClick [c2InactiveUrl] ['a', 'b', 'c'] c2Click =
        [{ c2InactiveUrl with clicks := [c2Click] }] ∧
      [{ c2InactiveUrl with clicks := [c2Click] }] ≠ [c2InactiveUrl] := by
  refine ⟨rfl, rfl, ?_⟩
  decide

/-- C2 (amended): `addClick code click` appends the click to every record
whose `shortCode` equals `code`, whether active or not, leaves every other
record unchanged, and the updated collection is persisted. -/
theorem C2_addClick_amended (s : StoreState) (shortCode : JsStr)
    (clickData : ClickData) :
    (addClickOp s shortCode clickData).stored =
        (addClickOp s shortCode clickData).urls ∧
      (addClickOp s shortCode clickData).urls.length = s.urls.length ∧
      ∀ i url, s.urls.get? i = some url →
        (addClickOp s shortCode clickData).urls.get? i =
          some (if url.shortCode == shortCode then
                  { url with clicks := url.clicks ++ [clickData] }
                else url) := by
  refine ⟨rfl, by simp [addClickOp, saveUrls, addClick], ?_⟩
  intro i url hget
  simp [addClickOp, saveUrls, addClick, List.get?_eq_getElem?] at *
  rcases List.getElem?_eq_some_iff.mp hget with ⟨hlt, hval⟩
  rw [List.getElem?_eq_getElem (by simpa using hlt)]
  simp [hval]

/-- Witness for C2 (amended): evaluated on the concrete one-record store. -/
theorem C2_witness :
    ([c2InactiveUrl].get? 0 = some c2InactiveUrl) ∧
      (addClickOp ⟨[c2InactiveUrl], [c2InactiveUrl]⟩ ['a', 'b', 'c']
          c2Click).urls.get? 0 =
        some (if c2InactiveUrl.shortCode == ['a', 'b', 'c'] then
                { c2InactiveUrl with clicks := c2InactiveUrl.clicks ++ [c2Click] }
              else c2InactiveUrl) :=
  ⟨rfl, (C2_addClick_amended ⟨[c2InactiveUrl], [c2InactiveUrl]⟩
    ['a', 'b', 'c'] c2Click).2.2 0 c2InactiveUrl rfl⟩

/-- Helper: the validity-range error of `validateForm` is raised exactly
for values outside `[1, 43200]`. -/
theorem validityMinutes_error_iff (validateUrl : JsStr → Bool)
    (shortenedUrls : List ShortenedUrl) (form : UrlFormData) :
    (validateForm validateUrl shortenedUrls form).validityMinutes =
        some msgValidityRange ↔
      form.validityMinutes < 1 ∨ 43200 < form.validityMinutes := by
  unfold validateForm
  split_ifs <;> simp_all

/-- Helper: a form whose errors are reported is a member of the `base`
error list, so the batch verdict is negative. -/
theorem validateAllForms_false_of_error (validateUrl : JsStr → Bool)
    (shortenedUrls : List ShortenedUrl) (forms : List UrlFormData) (i : ℕ)
    (form : UrlFormData) (hget : forms.get? i = some form)
    (herr : hasFormErrors (validateForm validateUrl shortenedUrls form)
      = true) :
    (validateAllForms validateUrl shortenedUrls forms).2 = false := by
  have hmem : form ∈ forms := List.get?_mem hget
  have hmem2 : validateForm validateUrl shortenedUrls form ∈
      forms.map (validateForm validateUrl shortenedUrls) :=
    List.mem_map_of_mem _ hmem
  have hany : (forms.map (validateForm validateUrl shortenedUrls)).any
      hasFormErrors = true :=
    List.any_eq_true.mpr ⟨_, hmem2, herr⟩
  simp [validateAllForms, hany]

/-- C3 (amended): `validateForm` flags `validityMinutes` exactly when the
value lies outside `[1, 43200]` (integrality is not checked, so any
value in range — integer or not — is accepted), and an out-of-range value
prevents the batch from being committed. -/
theorem C3_validity_range_check (validateUrl : JsStr → Bool)
    (shortenedUrls : List ShortenedUrl) (form : UrlFormData) :
    ((validateForm validateUrl shortenedUrls form).validityMinutes =
        some msgValidityRange ↔
      form.validityMinutes < 1 ∨ 43200 < form.validityMinutes) ∧
      ∀ (s : StoreState) (forms : List UrlFormData) (i : ℕ) (now : ℚ)
        (ids : ℕ → JsStr) (rands : ℕ → ℕ → ℚ),
        s.urls = shortenedUrls → forms.get? i = some form →
        (form.validityMinutes < 1 ∨ 43200 < form.validityMinutes) →
        (validateAllForms validateUrl shortenedUrls forms).2 = false ∧
          handleSubmit validateUrl s forms now ids rands = s := by
  refine ⟨validityMinutes_error_iff validateUrl shortenedUrls form, ?_⟩
  intro s forms i now ids rands hurls hget hout
  have herr : hasFormErrors (validateForm validateUrl shortenedUrls form)
      = true := by
    have := (validityMinutes_error_iff validateUrl shortenedUrls form).mpr hout
    simp [hasFormErrors, this]
  have hfalse := validateAllForms_false_of_error validateUrl shortenedUrls
    forms i form hget herr
  refine ⟨hfalse, ?_⟩
  unfold handleSubmit
  rw [hurls, hfalse]
  simp

/-- C3 counterexample: `validityMinutes = 3/2` is not an integer and lies
in `[1, 43200]`; `validateForm` reports no error on the field, and the
whole batch passes validation, so a non-integer value does not produce a
field error. -/
theorem C3_counterexample :
    (1 ≤ form3halves.validityMinutes ∧
        form3halves.validityMinutes ≤ 43200 ∧
        form3halves.validityMinutes.den = 2) ∧
      (validateForm (fun _ => true) [] form3halves).validityMinutes = none ∧
      (validateAllForms (fun _ => true) [] [form3halves]).2 = true := by
  refine ⟨⟨by decide, by decide, by decide⟩, by decide, by decide⟩

/-- Witness for C3 (amended): applied at `validityMinutes = 0`. -/
theorem C3_witness :
    (form0min.validityMinutes < 1 ∨ 43200 < form0min.validityMinutes) ∧
      (validateForm (fun _ => true) [] form0min).validityMinutes =
        some msgValidityRange ∧
      (validateAllForms (fun _ => true) [] [form0min]).2 = false := by
  have hout : form0min.validityMinutes < 1 ∨
      43200 < form0min.validityMinutes := Or.inl (by decide)
  refine ⟨hout, ?_, ?_⟩
  · exact (C3_validity_range_check (fun _ => true) [] form0min).1.mpr hout
  · exact ((C3_validity_range_check (fun _ => true) [] form0min).2
      ⟨[], []⟩ [form0min] 0 0 (fun _ => []) (fun _ _ => 0) rfl rfl hout).1

/-- C4: `isUrlExpired` holds iff the current time is strictly past
`expiresAt`; a record created with `validityMinutes = 1` is not expired at
`createdAt + 59999` and is expired at `createdAt + 60001`. -/
theorem C4_expiry_boundary :
    (∀ (now : ℚ) (url : ShortenedUrl),
        isUrlExpired now url = true ↔ url.expiresAt < now) ∧
      ∀ (form : UrlFormData) (id generatedCode : JsStr) (createdAt : ℚ),
        form.validityMinutes = 1 →
          isUrlExpired (createdAt + 59999)
              (createShortenedUrl form id createdAt generatedCode) = false ∧
            isUrlExpired (createdAt + 60001)
              (createShortenedUrl form id createdAt generatedCode) = true := by
  constructor
  · intro now url
    simp [isUrlExpired]
  · intro form id generatedCode createdAt hv
    constructor
    · simp only [isUrlExpired, createShortenedUrl, hv,
        decide_eq_false_iff_not, not_lt]
      linarith
    · simp only [isUrlExpired, createShortenedUrl, hv, decide_eq_true_eq]
      linarith

/-- Witness for C4: the boundary verified on a concrete record. -/
theorem C4_witness :
    form1min.validityMinutes = 1 ∧
      isUrlExpired ((0 : ℚ) + 59999)
          (createShortenedUrl form1min [] 0 []) = false ∧
        isUrlExpired ((0 : ℚ) + 60001)
          (createShortenedUrl form1min [] 0 []) = true :=
  ⟨rfl, C4_expiry_boundary.2 form1min [] [] 0 rfl⟩

/-- Helper: the commit loop appends exactly the created records. -/
theorem commitFormsAux_urls (now : ℚ) (ids : ℕ → JsStr)
    (rands : ℕ → ℕ → ℚ) :
    ∀ (forms : List UrlFormData) (s : StoreState) (idx : ℕ),
      (commitFormsAux now ids rands s forms idx).urls =
        s.urls ++ createdRecords now ids rands forms idx := by
  intro forms
  induction forms with
  | nil =>
    intro s idx
    simp [commitFormsAux, createdRecords]
  | cons form rest ih =>
    intro s idx
    unfold commitFormsAux createdRecords
    rw [ih]
    simp [addUrlOp, saveUrls]

/-- Helper: every record built by the commit loop carries the creation
invariants. -/
theorem createdRecords_invariant (now : ℚ) (ids : ℕ → JsStr)
    (rands : ℕ → ℕ → ℚ) :
    ∀ (forms : List UrlFormData) (idx : ℕ),
      ∀ r ∈ createdRecords now ids rands forms idx,
        r.createdAt = now ∧
          r.expiresAt = r.createdAt + r.validityMinutes * 60000 ∧
          r.clicks = [] ∧ r.isActive = true := by
  intro forms
  induction forms with
  | nil =>
    intro idx r hr
    simp [createdRecords] at hr
  | cons form rest ih =>
    intro idx r hr
    rcases List.mem_cons.mp hr with rfl | hr'
    · refine ⟨rfl, ?_, rfl, rfl⟩
      show now + form.validityMinutes * 60 * 1000 =
        now + form.validityMinutes * 60000
      ring
    · exact ih (idx + 1) r hr'

/-- C5: a successful single-form submission appends exactly one record,
persisted, with `createdAt = now`,
`expiresAt = createdAt + validityMinutes * 60000`, an empty click
sequence and `isActive = true`; when the custom code is empty the record
carries the freshly generated 6-character code; and more generally every
record committed by a successful batch satisfies the same invariants. -/
theorem C5_created_record_invariants (validateUrl : JsStr → Bool)
    (s : StoreState) (form : UrlFormData) (now : ℚ) (id : JsStr)
    (rand : ℕ → ℚ) (hrand : ∀ k, 0 ≤ rand k ∧ rand k < 1)
    (hvalid : (validateAllForms validateUrl s.urls [form]).2 = true) :
    handleSubmit validateUrl s [form] now (fun _ => id) (fun _ => rand) =
        saveUrls (s.urls ++
          [createShortenedUrl form id now (generateRandomShortCode rand)]) ∧
      (createShortenedUrl form id now
        (generateRandomShortCode rand)).createdAt = now ∧
      (createShortenedUrl form id now
          (generateRandomShortCode rand)).expiresAt =
        (createShortenedUrl form id now
          (generateRandomShortCode rand)).createdAt +
          form.validityMinutes * 60000 ∧
      (createShortenedUrl form id now
        (generateRandomShortCode rand)).clicks = [] ∧
      (createShortenedUrl form id now
        (generateRandomShortCode rand)).isActive = true ∧
      ((trim form.customShortCode).isEmpty = true →
        (createShortenedUrl form id now
            (generateRandomShortCode rand)).shortCode =
          generateRandomShortCode rand ∧
          (generateRandomShortCode rand).length = 6) ∧
      ∀ (forms : List UrlFormData) (ids : ℕ → JsStr) (rands : ℕ → ℕ → ℚ),
        (validateAllForms validateUrl s.urls forms).2 = true →
        (handleSubmit validateUrl s forms now ids rands).urls =
          s.urls ++ createdRecords now ids rands forms 0 ∧
        ∀ r ∈ createdRecords now ids rands forms 0,
          r.createdAt = now ∧
            r.expiresAt = r.createdAt + r.validityMinutes * 60000 ∧
            r.clicks = [] ∧ r.isActive = true := by
  refine ⟨?_, rfl, ?_, rfl, rfl, ?_, ?_⟩
  · simp [handleSubmit, hvalid, commitFormsAux, addUrlOp]
  · show now + form.validityMinutes * 60 * 1000 =
      now + form.validityMinutes * 60000
    ring
  · intro hempty
    refine ⟨?_, (generateRandomShortCode_spec rand hrand).1⟩
    simp [createShortenedUrl, hempty]
  · intro forms ids rands hv
    refine ⟨?_, createdRecords_invariant now ids rands forms 0⟩
    have hc := commitFormsAux_urls now ids rands forms s 0
    simp [handleSubmit, hv, hc]

/-- Witness for C5: the scenario `{originalUrl: "https://example.com",
customShortCode: "", validityMinutes: 30}` on an empty store. -/
theorem C5_witness :
    (validateAllForms (fun _ => true)
        (StoreState.mk [] []).urls [form30min]).2 = true ∧
      handleSubmit (fun _ => true) ⟨[], []⟩ [form30min] 0
          (fun _ => ['i']) (fun _ => fun _ => 0) =
        saveUrls ([] ++
          [createShortenedUrl form30min ['i'] 0
            (generateRandomShortCode (fun _ => 0))]) ∧
      (generateRandomShortCode (fun _ => 0)).length = 6 := by
  have hrand : ∀ k : ℕ, 0 ≤ (fun _ : ℕ => (0 : ℚ)) k ∧
      (fun _ : ℕ => (0 : ℚ)) k < 1 := fun _ => ⟨le_refl 0, by norm_num⟩
  have hvalid : (validateAllForms (fun _ => true)
      (StoreState.mk [] []).urls [form30min]).2 = true := by decide
  have h := C5_created_record_invariants (fun _ => true) ⟨[], []⟩ form30min 0
    ['i'] (fun _ => 0) hrand hvalid
  exact ⟨hvalid, h.1, (h.2.2.2.2.2.1 (by decide)).2⟩

/-- C6: a missing code, an unknown code and an expired record are the
terminal failure outcomes of the resolver; in every failure case the
record store is returned unchanged, so no click event is appended. -/
theorem C6_resolver_failures (now : ℚ) (s : StoreState)
    (shortCode : Option JsStr) (clickData : ClickData) :
    (shortCode = none →
        resolveShortCode now s shortCode clickData =
          ⟨some msgInvalidShortCode, false, s⟩) ∧
      (∀ code, shortCode = some code →
        findUrlByShortCode s.urls code = none →
        resolveShortCode now s shortCode clickData =
          ⟨some msgUrlNotFound, false, s⟩) ∧
      ∀ code url, shortCode = some code →
        findUrlByShortCode s.urls code = some url →
        isUrlExpired now url = true →
        resolveShortCode now s shortCode clickData =
          ⟨some msgUrlExpired, false, s⟩ := by
  refine ⟨?_, ?_, ?_⟩
  · rintro rfl
    rfl
  · rintro code rfl hfind
    simp [resolveShortCode, hfind]
  · rintro code url rfl hfind hexp
    simp [resolveShortCode, hfind, hexp]

/-- Witness for C6: an expired record resolves to the expired terminal
state with the store untouched, and a missing code resolves to the
invalid-code terminal state. -/
theorem C6_witness :
    findUrlByShortCode [expiredUrl] ['a', 'b', 'c'] = some expiredUrl ∧
      isUrlExpired 60001 expiredUrl = true ∧
      resolveShortCode 60001 ⟨[expiredUrl], [expiredUrl]⟩
          (some ['a', 'b', 'c']) c2Click =
        ⟨some msgUrlExpired, false, ⟨[expiredUrl], [expiredUrl]⟩⟩ := by
  have hfind : findUrlByShortCode
      (StoreState.mk [expiredUrl] [expiredUrl]).urls ['a', 'b', 'c'] =
      some expiredUrl := by decide
  have hexp : isUrlExpired 60001 expiredUrl = true := by decide
  exact ⟨hfind, hexp,
    (C6_resolver_failures 60001 ⟨[expiredUrl], [expiredUrl]⟩
      (some ['a', 'b', 'c']) c2Click).2.2 ['a', 'b', 'c'] expiredUrl rfl
      hfind hexp⟩

/-- Helper: `findIdx` is at most any index holding a satisfying element. -/
theorem findIdx_le_of_get {α : Type} (p : α → Bool) (l : List α) :
    ∀ (n : ℕ) (a : α), l.get? n = some a → p a = true → l.findIdx p ≤ n := by
  induction l with
  | nil =>
    intro n a h
    simp at h
  | cons x t ih =>
    intro n a h hp
    cases n with
    | zero =>
      have hx : x = a := by simpa using h
      subst hx
      simp [List.findIdx_cons, hp]
    | succ m =>
      have ht : t.get? m = some a := h
      rw [List.findIdx_cons]
      cases hpx : p x with
      | true => simp
      | false =>
        simp only [cond_false]
        exact Nat.succ_le_succ (ih m a ht hp)

/-- Helper: every entry index produced from start index `start` is at
least `start`. -/
theorem shortCodeEntriesAux_ge (forms : List UrlFormData) :
    ∀ start, ∀ q ∈ shortCodeEntriesAux forms start, start ≤ q.2 := by
  induction forms with
  | nil =>
    intro start q hq
    simp [shortCodeEntriesAux] at hq
  | cons f rest ih =>
    intro start q hq
    unfold shortCodeEntriesAux at hq
    by_cases hemp : (trim f.customShortCode).isEmpty
    · rw [if_pos hemp] at hq
      exact Nat.le_of_succ_le (ih (start + 1) q hq)
    · rw [if_neg hemp] at hq
      rcases List.mem_cons.mp hq with rfl | hq'
      · exact le_refl start
      · exact Nat.le_of_succ_le (ih (start + 1) q hq')

/-- Helper: the form indices of the short-code entries are strictly
increasing. -/
theorem shortCodeEntriesAux_pairwise (forms : List UrlFormData) :
    ∀ start,
      List.Pairwise (fun a b => a.2 < b.2) (shortCodeEntriesAux forms start) := by
  induction forms with
  | nil =>
    intro start
    simp [shortCodeEntriesAux]
  | cons f rest ih =>
    intro start
    unfold shortCodeEntriesAux
    by_cases hemp : (trim f.customShortCode).isEmpty
    · rw [if_pos hemp]
      exact ih (start + 1)
    · rw [if_neg hemp]
      refine List.Pairwise.cons ?_ (ih (start + 1))
      intro q hq
      exact Nat.lt_of_succ_le (shortCodeEntriesAux_ge rest (start + 1) q hq)

/-- Helper: a form with a non-empty trimmed custom code contributes its
entry to the short-code list. -/
theorem mem_shortCodeEntriesAux (forms : List UrlFormData) :
    ∀ (start i : ℕ) (form : UrlFormData), forms.get? i = some form →
      (trim form.customShortCode).isEmpty = false →
      (trim form.customShortCode, start + i) ∈ shortCodeEntriesAux forms start := by
  induction forms with
  | nil =>
    intro start i form h
    simp at h
  | cons f rest ih =>
    intro start i form h hne
    unfold shortCodeEntriesAux
    cases i with
    | zero =>
      have hf : f = form := by simpa using h
      subst hf
      rw [if_neg (by simp [hne])]
      exact List.mem_cons_self _ _
    | succ m =>
      have ht : rest.get? m = some form := h
      have hmem := ih (start + 1) m form ht hne
      have harith : start + 1 + m = start + (m + 1) := by omega
      rw [harith] at hmem
      by_cases hemp : (trim f.customShortCode).isEmpty
      · rw [if_pos hemp]
        exact hmem
      · rw [if_neg hemp]
        exact List.mem_cons_of_mem _ hmem

/-- Helper: an element of the examined list whose first match lies at a
different position survives the duplicate filter. -/
theorem mem_dupFilterAux (sc : List (JsStr × ℕ)) :
    ∀ (rem : List (JsStr × ℕ)) (pos n : ℕ) (q : JsStr × ℕ),
      rem.get? n = some q →
      sc.findIdx (fun other => other.1 == q.1) ≠ pos + n →
      q ∈ dupFilterAux sc rem pos := by
  intro rem
  induction rem with
  | nil =>
    intro pos n q h
    simp at h
  | cons r rest ih =>
    intro pos n q h hne
    unfold dupFilterAux
    cases n with
    | zero =>
      have hr : r = q := by simpa using h
      subst hr
      rw [if_neg (by simpa using hne)]
      exact List.mem_cons_self _ _
    | succ m =>
      have ht : rest.get? m = some q := h
      have harith : pos + 1 + m = pos + (m + 1) := by omega
      have hmem := ih (pos + 1) m q ht (by rw [harith]; exact hne)
      by_cases hidx : sc.findIdx (fun other => other.1 == r.1) = pos
      · rw [if_pos hidx]
        exact hmem
      · rw [if_neg hidx]
        exact List.mem_cons_of_mem _ hmem

/-- Helper: `setDuplicateErrorAt` keeps the length. -/
theorem setDuplicateErrorAt_length :
    ∀ (errs : List FormErrors) (n : ℕ),
      (setDuplicateErrorAt errs n).length = errs.length := by
  intro errs
  induction errs with
  | nil => intro n; cases n <;> rfl
  | cons e rest ih =>
    intro n
    cases n with
    | zero => rfl
    | succ m => simpa [setDuplicateErrorAt] using ih m

/-- Helper: `setDuplicateErrorAt` writes the duplicate message at the
target index. -/
theorem setDuplicateErrorAt_get_self :
    ∀ (errs : List FormErrors) (n : ℕ) (e : FormErrors),
      errs.get? n = some e →
      (setDuplicateErrorAt errs n).get? n =
        some { e with customShortCode := some msgDuplicateCode } := by
  intro errs
  induction errs with
  | nil =>
    intro n e h
    simp at h
  | cons x rest ih =>
    intro n e h
    cases n with
    | zero =>
      have hx : x = e := by simpa using h
      subst hx
      rfl
    | succ m =>
      exact ih m e h

/-- Helper: `setDuplicateErrorAt` leaves every other index alone. -/
theorem setDuplicateErrorAt_get_other :
    ∀ (errs : List FormErrors) (n m : ℕ), m ≠ n →
      (setDuplicateErrorAt errs n).get? m = errs.get? m := by
  intro errs
  induction errs with
  | nil => intro n m _; cases n <;> rfl
  | cons x rest ih =>
    intro n m hne
    cases n with
    | zero =>
      cases m with
      | zero => exact absurd rfl hne
      | succ k => rfl
    | succ j =>
      cases m with
      | zero => rfl
      | succ k => exact ih j k (fun hc => hne (by rw [hc]))

/-- Helper: after the duplicate pass, an index named by some duplicate
entry carries the duplicate message. -/
theorem applyDuplicateErrors_get (j : ℕ) :
    ∀ (dups : List (JsStr × ℕ)) (errs : List FormErrors),
      ((∃ d ∈ dups, d.2 = j) ∧ j < errs.length) ∨
        (∃ e, errs.get? j = some e ∧
          e.customShortCode = some msgDuplicateCode) →
      ∃ e, (applyDuplicateErrors errs dups).get? j = some e ∧
        e.customShortCode = some msgDuplicateCode := by
  intro dups
  induction dups with
  | nil =>
    intro errs h
    rcases h with ⟨⟨d, hd, _⟩, _⟩ | h
    · simp at hd
    · exact h
  | cons d rest ih =>
    intro errs h
    have hstep : applyDuplicateErrors errs (d :: rest) =
        applyDuplicateErrors (setDuplicateErrorAt errs d.2) rest := rfl
    rw [hstep]
    have hlen : (setDuplicateErrorAt errs d.2).length = errs.length :=
      setDuplicateErrorAt_length errs d.2
    rcases h with ⟨⟨d', hd'mem, hd'j⟩, hlt⟩ | ⟨e, hget, hcode⟩
    · rcases List.mem_cons.mp hd'mem with rfl | hd'rest
      · subst hd'j
        rcases List.get?_eq_get hlt with hget0
        refine ih (setDuplicateErrorAt errs d'.2) (Or.inr ?_)
        exact ⟨_, setDuplicateErrorAt_get_self errs d'.2 _ hget0, rfl⟩
      · exact ih _ (Or.inl ⟨⟨d', hd'rest, hd'j⟩, by rw [hlen]; exact hlt⟩)
    · by_cases hdj : d.2 = j
      · subst hdj
        refine ih _ (Or.inr ?_)
        exact ⟨_, setDuplicateErrorAt_get_self errs d.2 e hget, rfl⟩
      · refine ih _ (Or.inr ?_)
        refine ⟨e, ?_, hcode⟩
        rw [setDuplicateErrorAt_get_other errs d.2 j (fun hc => hdj hc.symm)]
        exact hget

/-- Helper: a later occurrence of a repeated non-empty trimmed custom code
is a member of the duplicates list. -/
theorem mem_duplicateEntries (forms : List UrlFormData) (i j : ℕ)
    (fi fj : UrlFormData) (hi : forms.get? i = some fi)
    (hj : forms.get? j = some fj) (hij : i < j)
    (hcode : trim fi.customShortCode = trim fj.customShortCode)
    (hne : (trim fj.customShortCode).isEmpty = false) :
    (trim fj.customShortCode, j) ∈ duplicateEntries forms := by
  have hnei : (trim fi.customShortCode).isEmpty = false := by
    rw [hcode]; exact hne
  have hmi := mem_shortCodeEntriesAux forms 0 i fi hi hnei
  have hmj := mem_shortCodeEntriesAux forms 0 j fj hj hne
  rw [hcode] at hmi
  simp only [Nat.zero_add] at hmi hmj
  obtain ⟨pi, hpi⟩ := List.mem_iff_get.mp hmi
  obtain ⟨pj, hpj⟩ := List.mem_iff_get.mp hmj
  have hpair := shortCodeEntriesAux_pairwise forms 0
  have hplt : (pi : ℕ) < (pj : ℕ) := by
    rcases lt_trichotomy (pi : ℕ) (pj : ℕ) with h | h | h
    · exact h
    · exfalso
      have hfin : pi = pj := Fin.ext h
      rw [hfin, hpj] at hpi
      have hsnd := congrArg Prod.snd hpi
      simp only at hsnd
      omega
    · exfalso
      have hrel := (List.pairwise_iff_get.mp hpair) pj pi (Fin.lt_def.mpr h)
      rw [hpi, hpj] at hrel
      simp only at hrel
      omega
  have hq : (shortCodeEntriesAux forms 0).get? (pi : ℕ) =
      some (trim fj.customShortCode, i) := by
    rw [List.get?_eq_get pi.isLt]
    exact congrArg some hpi
  have hple : (shortCodeEntriesAux forms 0).findIdx
      (fun other => other.1 == (trim fj.customShortCode, j).1) ≤ (pi : ℕ) := by
    apply findIdx_le_of_get _ _ (pi : ℕ) (trim fj.customShortCode, i) hq
    simp
  have hqj : (shortCodeEntriesAux forms 0).get? (pj : ℕ) =
      some (trim fj.customShortCode, j) := by
    rw [List.get?_eq_get pj.isLt]
    exact congrArg some hpj
  unfold duplicateEntries shortCodeEntries
  apply mem_dupFilterAux _ _ 0 (pj : ℕ) _ hqj
  intro hc
  rw [Nat.zero_add] at hc
  omega

/-- C1 (amended): when two requests in a batch share the same non-empty
trimmed custom short code, validation fails and zero records are
committed; the later of the two requests is flagged with the
duplicate-shortcode error on `customShortCode` (the earlier request is not
flagged by the duplicate pass, as the counterexample shows). -/
theorem C1_duplicate_batch (validateUrl : JsStr → Bool) (s : StoreState)
    (forms : List UrlFormData) (i j : ℕ) (fi fj : UrlFormData) (now : ℚ)
    (ids : ℕ → JsStr) (rands : ℕ → ℕ → ℚ)
    (hi : forms.get? i = some fi) (hj : forms.get? j = some fj)
    (hij : i < j)
    (hcode : trim fi.customShortCode = trim fj.customShortCode)
    (hne : (trim fj.customShortCode).isEmpty = false) :
    (validateAllForms validateUrl s.urls forms).2 = false ∧
      handleSubmit validateUrl s forms now ids rands = s ∧
      ∃ e, (validateAllForms validateUrl s.urls forms).1.get? j = some e ∧
        e.customShortCode = some msgDuplicateCode := by
  have hdup := mem_duplicateEntries forms i j fi fj hi hj hij hcode hne
  have hver : (validateAllForms validateUrl s.urls forms).2 = false := by
    have hdne : duplicateEntries forms ≠ [] := List.ne_nil_of_mem hdup
    have hemp : (duplicateEntries forms).isEmpty = false := by
      simpa [List.isEmpty_iff] using hdne
    simp [validateAllForms, hemp]
  refine ⟨hver, ?_, ?_⟩
  · unfold handleSubmit
    rw [hver]
    simp
  · have hjlt : j < forms.length := by
      rcases List.get?_eq_some.mp hj with ⟨h, _⟩
      exact h
    have hjlt' : j < (forms.map (validateForm validateUrl s.urls)).length := by
      simpa using hjlt
    exact applyDuplicateErrors_get j (duplicateEntries forms)
      (forms.map (validateForm validateUrl s.urls))
      (Or.inl ⟨⟨(trim fj.customShortCode, j), hdup, rfl⟩, hjlt'⟩)

/-- C1 counterexample: in the batch `[formDup, formDup]` (both entries
with custom code `"abc123"`), the first entry carries no error at all —
only the second is flagged — so the claim that BOTH entries are flagged
is false. -/
theorem C1_counterexample :
    (trim formDup.customShortCode).isEmpty = false ∧
      (validateAllForms (fun _ => true) [] [formDup, formDup]).1.get? 0 =
        some ⟨none, none, none⟩ ∧
      (validateAllForms (fun _ => true) [] [formDup, formDup]).1.get? 1 =
        some ⟨none, some msgDuplicateCode, none⟩ := by
  refine ⟨by decide, by decide, by decide⟩

/-- Witness for C1 (amended): the concrete duplicate batch. -/
theorem C1_witness :
    ([formDup, formDup].get? 0 = some formDup ∧
        [formDup, formDup].get? 1 = some formDup ∧
        (0 : ℕ) < 1 ∧
        trim formDup.customShortCode = trim formDup.customShortCode ∧
        (trim formDup.customShortCode).isEmpty = false) ∧
      (validateAllForms (fun _ => true) (StoreState.mk [] []).urls
          [formDup, formDup]).2 = false ∧
      handleSubmit (fun _ => true) ⟨[], []⟩ [formDup, formDup] 0
        (fun _ => []) (fun _ _ => 0) = ⟨[], []⟩ := by
  have h := C1_duplicate_batch (fun _ => true) ⟨[], []⟩ [formDup, formDup]
    0 1 formDup formDup 0 (fun _ => []) (fun _ _ => 0) rfl rfl
    (by decide) rfl (by decide)
  exact ⟨⟨rfl, rfl, by decide, rfl, by decide⟩, h.1, h.2.1⟩

end UrlShort
